import Mathlib

/-!
Shallow embedding of the disk-scheduling engine of this repository
(`disk_logic.py`, and the near-duplicate engine embedded in
`disk_sheduling.py`), together with theorems checking the specification's
claims about it.

Track numbers are modelled as `Int` (Python integers), the accumulated seek
distance as `Int` (a sum of absolute values), and Python float arithmetic in
`_calculate_metrics` by exact rationals (`ℚ`); all inputs involved are small
integers, so the float computations of the source are exact and the rational
model coincides with them.
-/

namespace DiskSim

/-- The `MAX_TRACK = 199` from `disk_logic.py`. -/
def MAX_TRACK : Int := 199

/-- The `MIN_TRACK = 0` from `disk_logic.py`. -/
def MIN_TRACK : Int := 0

/-- The `SEEK_TIME_PER_TRACK = 1.0`, modelled exactly. -/
def SEEK_TIME_PER_TRACK : ℚ := 1

/-- Python `sorted` on a list of integers (ascending).  Python's sort is
stable, but on integer values stability is unobservable, so any ascending
sort models it exactly at the level of values. -/
def pySorted (l : List Int) : List Int := l.insertionSort (· ≤ ·)

/-- Python `sorted(l, reverse=True)` on a list of integers (descending). -/
def pySortedDesc (l : List Int) : List Int := l.insertionSort (· ≥ ·)

/-- Python `min(best :: l, key=lambda track: abs(track - head))`: a later
element replaces the current best only when its key is strictly smaller, so
the first element attaining the minimum key wins. -/
def pyMinFrom (head : Int) (best : Int) (l : List Int) : Int :=
  l.foldl (fun b t => if |t - head| < |b - head| then t else b) best

/-- The mutable state of a `DiskScheduler` instance (`disk_logic.py`).
`requests` is the working copy `self.requests` made by `simulate`; before the
first `simulate` call it does not exist in the source, modelled as `[]`. -/
structure DiskScheduler where
  initial_requests : List Int
  initial_head : Int
  head_position : Int
  total_seek_time : Int
  movement_sequence : List Int
  requests : List Int
deriving Repr, DecidableEq

/-- The `DiskScheduler.__init__(requests, initial_head)`. -/
def DiskScheduler.init (requests : List Int) (initial_head : Int) : DiskScheduler :=
  { initial_requests := requests
    initial_head := initial_head
    head_position := initial_head
    total_seek_time := 0
    movement_sequence := [initial_head]
    requests := [] }

/-- The body shared by all the service loops: charge
`seek = abs(next_track - head_position)` — except that the `_scan_or_cscan`
loop, when `cscan` is set, charges `0` for an opposite-boundary pair —
then advance the head and append the track to the movement sequence.
The `_fcfs` and `_sstf` loops have this body with no C-SCAN guard,
recovered here by `cscan = false`. -/
def serveTrack (cscan : Bool) (s : DiskScheduler) (next_track : Int) : DiskScheduler :=
  let seek : Int :=
    if cscan ∧ ((s.head_position = MAX_TRACK ∧ next_track = MIN_TRACK) ∨
        (s.head_position = MIN_TRACK ∧ next_track = MAX_TRACK)) then 0
    else |next_track - s.head_position|
  { s with
    total_seek_time := s.total_seek_time + seek
    head_position := next_track
    movement_sequence := s.movement_sequence ++ [next_track] }

/-- The `DiskScheduler._fcfs`: serve `self.requests` strictly in order (the
source pops the front of a working copy until it is empty, i.e. a left
fold of the loop body over the list). -/
def DiskScheduler.fcfs (s : DiskScheduler) : DiskScheduler :=
  s.requests.foldl (serveTrack false) s

/-- The membership fact used for termination of the `_sstf` loop:
`pyMinFrom` returns either its starting candidate or a list element. -/
theorem pyMinFrom_eq_or_mem (head : Int) :
    ∀ (l : List Int) (best : Int), pyMinFrom head best l = best ∨ pyMinFrom head best l ∈ l := by
  intro l
  induction l with
  | nil => intro best; exact Or.inl rfl
  | cons t ts ih =>
    intro best
    simp only [pyMinFrom, List.foldl_cons]
    by_cases h : |t - head| < |best - head|
    · rw [if_pos h]
      rcases ih t with h' | h'
      · exact Or.inr (by simp [pyMinFrom] at h' ⊢; simp [h'])
      · exact Or.inr (List.mem_cons_of_mem _ h')
    · rw [if_neg h]
      rcases ih best with h' | h'
      · exact Or.inl h'
      · exact Or.inr (List.mem_cons_of_mem _ h')

theorem pyMinFrom_mem (head t : Int) (ts : List Int) :
    pyMinFrom head t ts ∈ t :: ts := by
  rcases pyMinFrom_eq_or_mem head ts t with h | h
  · rw [h]; exact List.mem_cons_self t ts
  · exact List.mem_cons_of_mem _ h

/-- The `DiskScheduler._sstf`: repeatedly pick, from the remaining working copy,
the request of minimum `abs(track - head_position)` (Python `min`, first
minimum wins), serve it, and remove it (`list.remove`, i.e. erase the first
occurrence) before the next iteration. -/
def DiskScheduler.sstfLoop (s : DiskScheduler) : List Int → DiskScheduler
  | [] => s
  | t :: ts =>
    let next_track := pyMinFrom s.head_position t ts
    DiskScheduler.sstfLoop (serveTrack false s next_track) ((t :: ts).erase next_track)
termination_by l => l.length
decreasing_by
  have hm : next_track ∈ t :: ts := pyMinFrom_mem s.head_position t ts
  have := List.length_erase_of_mem hm
  simp only [this, List.length_cons]
  omega

/-- The `DiskScheduler._sstf` entry point: the source copies `self.requests`
into the working list and runs the loop. -/
def DiskScheduler.sstf (s : DiskScheduler) : DiskScheduler :=
  s.sstfLoop s.requests

/-- The `sequence` list built by `DiskScheduler._scan_or_cscan` in
`disk_logic.py`: sort the working copy, split it at `current_head`
(`lower` strictly below, `upper` at or above), then primary sweep,
boundary track(s), and secondary sweep.  Under SCAN the secondary list is
sorted in the primary direction and then reversed in place; under C-SCAN
the boundary pair is followed by the remaining group re-sorted in the
primary direction.  An unrecognized direction leaves the sweep lists
unassigned in the source (the loop would serve nothing); modelled as `[]`. -/
def scanSequence (algorithm direction : String) (current_head : Int) (reqs : List Int) :
    List Int :=
  let requests := pySorted reqs
  let lower := requests.filter (fun r => decide (r < current_head))
  let upper := requests.filter (fun r => decide (current_head ≤ r))
  if direction = "UP" then
    let current_list := pySorted upper
    let other_list := pySorted lower
    if algorithm = "SCAN" then current_list ++ [MAX_TRACK] ++ other_list.reverse
    else if algorithm = "C-SCAN" then current_list ++ [MAX_TRACK, MIN_TRACK] ++ pySorted lower
    else current_list
  else if direction = "DOWN" then
    let current_list := pySortedDesc lower
    let other_list := pySortedDesc upper
    if algorithm = "SCAN" then current_list ++ [MIN_TRACK] ++ other_list.reverse
    else if algorithm = "C-SCAN" then current_list ++ [MIN_TRACK, MAX_TRACK] ++ pySortedDesc upper
    else current_list
  else []

/-- The `DiskScheduler._scan_or_cscan` (`disk_logic.py`): build `sequence` from
`self.initial_head` and the working copy, then run the seek-accounting loop
over it, with the zero-cost boundary-jump rule active exactly when the
algorithm is C-SCAN. -/
def DiskScheduler.scanOrCscan (s : DiskScheduler) (algorithm direction : String) :
    DiskScheduler :=
  (scanSequence algorithm direction s.initial_head s.requests).foldl
    (serveTrack (algorithm == "C-SCAN")) s

/-- The `DiskScheduler._calculate_metrics`: total seek, average seek
(`total / num_requests`, or `0` when there are no requests), throughput
(`num_requests / total_time` when `total_time > 0`, else `0`). -/
def DiskScheduler.calculateMetrics (s : DiskScheduler) : Int × ℚ × ℚ :=
  let total_time : ℚ := (s.total_seek_time : ℚ) * SEEK_TIME_PER_TRACK
  let num_requests : Nat := s.initial_requests.length
  let avg_seek_time : ℚ :=
    if num_requests ≠ 0 then (s.total_seek_time : ℚ) / (num_requests : ℚ) else 0
  let throughput : ℚ := if 0 < total_time then (num_requests : ℚ) / total_time else 0
  (s.total_seek_time, avg_seek_time, throughput)

/-- The quadruple returned by a successful `simulate` call. -/
structure SimResult where
  movement_sequence : List Int
  total_seek : Int
  avg_seek : ℚ
  throughput : ℚ
deriving Repr, DecidableEq

/-- Package the post-run state into the returned quadruple. -/
def DiskScheduler.finish (s : DiskScheduler) : DiskScheduler × Option SimResult :=
  let m := s.calculateMetrics
  (s, some ⟨s.movement_sequence, m.1, m.2.1, m.2.2⟩)

/-- The `DiskScheduler.simulate(algorithm, direction)` (`disk_logic.py`): reset
the mutable state from the initial fields, dispatch on the algorithm name,
and return the movement sequence plus metrics; an unknown name returns the
four-fold `None` (modelled as `none`) after the reset. -/
def DiskScheduler.simulate (s₀ : DiskScheduler) (algorithm direction : String) :
    DiskScheduler × Option SimResult :=
  let s : DiskScheduler :=
    { s₀ with
      head_position := s₀.initial_head
      requests := s₀.initial_requests
      total_seek_time := 0
      movement_sequence := [s₀.initial_head] }
  if algorithm = "FCFS" then s.fcfs.finish
  else if algorithm = "SSTF" then s.sstf.finish
  else if algorithm = "SCAN" ∨ algorithm = "C-SCAN" then
    (s.scanOrCscan algorithm direction).finish
  else (s, none)

/-- Run one fresh simulation, as the GUI does: construct the engine and call
`simulate`, keeping only the returned quadruple. -/
def runSim (reqs : List Int) (head : Int) (algorithm direction : String) :
    Option SimResult :=
  ((DiskScheduler.init reqs head).simulate algorithm direction).2

/-! ### The seek-accounting loop as a pure function -/

/-- Total seek charged by the service loop started at `head` over a list of
tracks: `|next − current|` per transition, except that with `cscan` set an
opposite-boundary transition is charged `0`. -/
def loopSeek (cscan : Bool) (head : Int) : List Int → Int
  | [] => 0
  | t :: ts =>
    (if cscan ∧ ((head = MAX_TRACK ∧ t = MIN_TRACK) ∨ (head = MIN_TRACK ∧ t = MAX_TRACK))
      then 0 else |t - head|) + loopSeek cscan t ts

/-- Total `|next − current|` accumulated over exactly those transitions that
the C-SCAN rule charges as `0` (opposite-boundary pairs). -/
def boundaryJumpSum (head : Int) : List Int → Int
  | [] => 0
  | t :: ts =>
    (if (head = MAX_TRACK ∧ t = MIN_TRACK) ∨ (head = MIN_TRACK ∧ t = MAX_TRACK)
      then |t - head| else 0) + boundaryJumpSum t ts

theorem loopSeek_nonneg (cscan : Bool) :
    ∀ (head : Int) (l : List Int), 0 ≤ loopSeek cscan head l := by
  intro head l
  induction l generalizing head with
  | nil => simp [loopSeek]
  | cons t ts ih =>
    have h1 : (0:Int) ≤ (if cscan ∧ ((head = MAX_TRACK ∧ t = MIN_TRACK) ∨
        (head = MIN_TRACK ∧ t = MAX_TRACK)) then 0 else |t - head|) := by
      split
      · exact le_refl 0
      · exact abs_nonneg _
    have h2 := ih t
    simp only [loopSeek]
    omega

/-- Every loop of the engine is a left fold of `serveTrack`; this computes
the resulting state in closed form. -/
theorem foldl_serveTrack (cscan : Bool) :
    ∀ (seq : List Int) (s : DiskScheduler),
      seq.foldl (serveTrack cscan) s =
        { s with
          total_seek_time := s.total_seek_time + loopSeek cscan s.head_position seq
          head_position := seq.getLastD s.head_position
          movement_sequence := s.movement_sequence ++ seq } := by
  intro seq
  induction seq with
  | nil => intro s; simp [loopSeek]
  | cons t ts ih =>
    intro s
    simp only [List.foldl_cons]
    rw [ih]
    simp only [serveTrack, loopSeek, List.getLastD_cons]
    congr 1
    · omega
    · simp

/-- Decomposition of the C-SCAN charge: the charged total plus the skipped
boundary-pair distances is the plain sum of absolute differences. -/
theorem loopSeek_cscan_add_boundaryJumpSum :
    ∀ (head : Int) (l : List Int),
      loopSeek true head l + boundaryJumpSum head l = loopSeek false head l := by
  intro head l
  induction l generalizing head with
  | nil => simp [loopSeek, boundaryJumpSum]
  | cons t ts ih =>
    have h := ih t
    by_cases hc : (head = MAX_TRACK ∧ t = MIN_TRACK) ∨ (head = MIN_TRACK ∧ t = MAX_TRACK)
    · simp only [loopSeek, boundaryJumpSum]
      simp [hc]
      omega
    · simp only [loopSeek, boundaryJumpSum]
      simp [hc]
      omega

/-! ### Properties of the SSTF selection -/

/-- The `pyMinFrom` attains the minimum distance among the candidate and all
list elements. -/
theorem pyMinFrom_le (head : Int) :
    ∀ (l : List Int) (best : Int), ∀ x ∈ best :: l,
      |pyMinFrom head best l - head| ≤ |x - head| := by
  intro l
  induction l with
  | nil =>
    intro best x hx
    rcases List.mem_cons.mp hx with h | h
    · subst h; simp [pyMinFrom]
    · simp at h
  | cons t ts ih =>
    intro best x hx
    simp only [pyMinFrom, List.foldl_cons]
    by_cases hlt : |t - head| < |best - head|
    · rw [if_pos hlt]
      rcases List.mem_cons.mp hx with h | h
      · rw [h]
        exact le_trans (ih t t (List.mem_cons_self t ts)) (le_of_lt hlt)
      · exact ih t x h
    · rw [if_neg hlt]
      rcases List.mem_cons.mp hx with h | h
      · rw [h]; exact ih best best (List.mem_cons_self best ts)
      · rcases List.mem_cons.mp h with h' | h'
        · rw [h']
          exact le_trans (ih best best (List.mem_cons_self best ts)) (le_of_not_lt hlt)
        · exact ih best x (List.mem_cons_of_mem best h')

/-- The `pyMinFrom` is the FIRST element attaining the minimum distance: every
element strictly before it in `best :: l` has strictly larger distance. -/
theorem pyMinFrom_first (head : Int) :
    ∀ (l : List Int) (best : Int),
      ∃ l₁ l₂, best :: l = l₁ ++ pyMinFrom head best l :: l₂ ∧
        ∀ x ∈ l₁, |pyMinFrom head best l - head| < |x - head| := by
  intro l
  induction l with
  | nil =>
    intro best
    exact ⟨[], [], by simp [pyMinFrom], by simp⟩
  | cons t ts ih =>
    intro best
    have hstep : pyMinFrom head best (t :: ts) =
        if |t - head| < |best - head| then pyMinFrom head t ts
        else pyMinFrom head best ts := by
      simp only [pyMinFrom, List.foldl_cons]
      split <;> rfl
    by_cases hlt : |t - head| < |best - head|
    · rw [hstep, if_pos hlt]
      obtain ⟨l₁, l₂, heq, hstrict⟩ := ih t
      refine ⟨best :: l₁, l₂, by rw [List.cons_append, ← heq], ?_⟩
      intro x hx
      rcases List.mem_cons.mp hx with h | h
      · rw [h]
        exact lt_of_le_of_lt (pyMinFrom_le head ts t t (List.mem_cons_self t ts)) hlt
      · exact hstrict x h
    · rw [hstep, if_neg hlt]
      obtain ⟨l₁, l₂, heq, hstrict⟩ := ih best
      match l₁, heq with
      | [], heq =>
        have hb : pyMinFrom head best ts = best := by
          simpa using congrArg (fun l => l.headD 0) heq.symm
        exact ⟨[], t :: ts, by simp [hb], by simp⟩
      | b :: r, heq =>
        have hb : b = best := by
          simpa using congrArg (fun l => l.headD 0) heq.symm
        have hts : ts = r ++ pyMinFrom head best ts :: l₂ := by
          simpa using congrArg List.tail heq
        refine ⟨best :: t :: r, l₂, ?_, ?_⟩
        · rw [List.cons_append, List.cons_append]
          exact congrArg (fun l => best :: t :: l) hts
        · intro x hx
          have hmb : |pyMinFrom head best ts - head| < |best - head| := by
            have hb' := hstrict b (List.mem_cons_self b r)
            rwa [hb] at hb'
          rcases List.mem_cons.mp hx with h | h
          · rw [h]; exact hmb
          · rcases List.mem_cons.mp h with h' | h'
            · rw [h']
              exact lt_of_lt_of_le hmb (le_of_not_lt hlt)
            · exact hstrict x (List.mem_cons_of_mem b h')

/-- Fuel-indexed unfolding of the `_sstf` selection loop (the fuel is the
length of the working list, which the loop decreases by exactly one per
iteration); structurally recursive so that it evaluates inside the kernel. -/
def sstfSeqAux : Nat → Int → List Int → List Int
  | 0, _, _ => []
  | fuel + 1, head, l =>
    match l with
    | [] => []
    | t :: ts =>
      let m := pyMinFrom head t ts
      m :: sstfSeqAux fuel m ((t :: ts).erase m)

/-- The service order chosen by the `_sstf` loop, as a pure function of the
running head position and the remaining working copy: the first
minimum-distance request, then recurse from it with that request removed. -/
def sstfSeq (head : Int) (l : List Int) : List Int := sstfSeqAux l.length head l

/-- One unfolding step of the SSTF service order. -/
theorem sstfSeq_cons (head t : Int) (ts : List Int) :
    sstfSeq head (t :: ts) =
      pyMinFrom head t ts ::
        sstfSeq (pyMinFrom head t ts) ((t :: ts).erase (pyMinFrom head t ts)) := by
  have hm := pyMinFrom_mem head t ts
  have hlen : ((t :: ts).erase (pyMinFrom head t ts)).length = ts.length := by
    rw [List.length_erase_of_mem hm]
    rfl
  show sstfSeqAux (t :: ts).length head (t :: ts) = _
  rw [List.length_cons, sstfSeqAux]
  unfold sstfSeq
  rw [hlen]

/-- The stateful `_sstf` loop is the fold of the service body over the pure
service order. -/
theorem sstfLoop_eq_foldl (s : DiskScheduler) (cur : List Int) :
    s.sstfLoop cur = (sstfSeq s.head_position cur).foldl (serveTrack false) s := by
  induction s, cur using DiskScheduler.sstfLoop.induct with
  | case1 s => simp [DiskScheduler.sstfLoop, sstfSeq, sstfSeqAux]
  | case2 s t ts next_track ih =>
    rw [DiskScheduler.sstfLoop, sstfSeq_cons]
    simp only [List.foldl_cons]
    exact ih

theorem sstfSeqAux_perm :
    ∀ (fuel : Nat) (l : List Int) (head : Int), l.length ≤ fuel →
      List.Perm (sstfSeqAux fuel head l) l := by
  intro fuel
  induction fuel with
  | zero =>
    intro l head h
    match l with
    | [] => simp [sstfSeqAux]
    | t :: ts => simp at h
  | succ n ih =>
    intro l head h
    match l with
    | [] => simp [sstfSeqAux]
    | t :: ts =>
      rw [sstfSeqAux]
      have hm := pyMinFrom_mem head t ts
      have hlen : ((t :: ts).erase (pyMinFrom head t ts)).length ≤ n := by
        rw [List.length_erase_of_mem hm]
        simpa using h
      exact ((ih _ _ hlen).cons _).trans (List.perm_cons_erase hm).symm

/-- SSTF serves every request exactly once: its service order is a
permutation of the remaining requests. -/
theorem sstfSeq_perm (head : Int) (l : List Int) : List.Perm (sstfSeq head l) l :=
  sstfSeqAux_perm l.length l head le_rfl

/-! ### Properties of the Python sorts -/

theorem pySorted_sorted (l : List Int) : (pySorted l).Sorted (· ≤ ·) :=
  List.sorted_insertionSort _ l

theorem pySortedDesc_sorted (l : List Int) : (pySortedDesc l).Sorted (· ≥ ·) :=
  List.sorted_insertionSort _ l

theorem pySorted_perm (l : List Int) : List.Perm (pySorted l) l :=
  List.perm_insertionSort _ l

theorem pySortedDesc_perm (l : List Int) : List.Perm (pySortedDesc l) l :=
  List.perm_insertionSort _ l

/-- Sorting ascending is invariant under permutation of the input. -/
theorem pySorted_congr {l₁ l₂ : List Int} (h : List.Perm l₁ l₂) :
    pySorted l₁ = pySorted l₂ :=
  List.eq_of_perm_of_sorted ((pySorted_perm l₁).trans (h.trans (pySorted_perm l₂).symm))
    (pySorted_sorted l₁) (pySorted_sorted l₂)

/-- Sorting descending is invariant under permutation of the input. -/
theorem pySortedDesc_congr {l₁ l₂ : List Int} (h : List.Perm l₁ l₂) :
    pySortedDesc l₁ = pySortedDesc l₂ :=
  List.eq_of_perm_of_sorted ((pySortedDesc_perm l₁).trans (h.trans (pySortedDesc_perm l₂).symm))
    (pySortedDesc_sorted l₁) (pySortedDesc_sorted l₂)

/-- Reversing the ascending sort of an integer list gives exactly its
descending sort (`sorted(l)[::-1] == sorted(l, reverse=True)` on values). -/
theorem pySorted_reverse (l : List Int) : (pySorted l).reverse = pySortedDesc l := by
  refine List.eq_of_perm_of_sorted (r := (· ≥ ·))
    (((pySorted l).reverse_perm).trans ((pySorted_perm l).trans (pySortedDesc_perm l).symm))
    ?_ (pySortedDesc_sorted l)
  have h := pySorted_sorted l
  rw [List.Sorted, List.pairwise_reverse]
  simpa [ge_iff_le] using h

/-- Reversing the descending sort gives the ascending sort. -/
theorem pySortedDesc_reverse (l : List Int) : (pySortedDesc l).reverse = pySorted l := by
  refine List.eq_of_perm_of_sorted (r := (· ≤ ·))
    (((pySortedDesc l).reverse_perm).trans ((pySortedDesc_perm l).trans (pySorted_perm l).symm))
    ?_ (pySorted_sorted l)
  have h := pySortedDesc_sorted l
  rw [List.Sorted, List.pairwise_reverse]
  simpa [ge_iff_le] using h

/-- Re-sorting a filtered sorted list is the sort of the filtered original. -/
theorem pySorted_filter_pySorted (p : Int → Bool) (l : List Int) :
    pySorted ((pySorted l).filter p) = pySorted (l.filter p) :=
  pySorted_congr ((pySorted_perm l).filter p)

theorem pySortedDesc_filter_pySorted (p : Int → Bool) (l : List Int) :
    pySortedDesc ((pySorted l).filter p) = pySortedDesc (l.filter p) :=
  pySortedDesc_congr ((pySorted_perm l).filter p)

/-- The lower/upper split partitions the request list (as multisets):
`filter (· < h)` and `filter (h ≤ ·)` together are a permutation of it. -/
theorem filter_split_perm (head : Int) (l : List Int) :
    List.Perm (l.filter (fun r => decide (head ≤ r)) ++ l.filter (fun r => decide (r < head))) l := by
  have h := List.filter_append_perm (fun r => decide (head ≤ r)) l
  have hf : (fun (r : Int) => !decide (head ≤ r)) = fun r => decide (r < head) := by
    funext r
    by_cases hr : head ≤ r
    · simp [hr, not_lt.mpr hr]
    · simp [hr, lt_of_not_le hr]
  rwa [hf] at h

/-! ### Closed forms of the scan sequences and of `runSim` -/

theorem scanSequence_SCAN_UP (head : Int) (reqs : List Int) :
    scanSequence "SCAN" "UP" head reqs =
      pySorted (reqs.filter (fun r => decide (head ≤ r))) ++ [MAX_TRACK] ++
        pySortedDesc (reqs.filter (fun r => decide (r < head))) := by
  simp only [scanSequence]
  norm_num
  rw [pySorted_filter_pySorted, pySorted_reverse, pySortedDesc_filter_pySorted]

theorem scanSequence_SCAN_DOWN (head : Int) (reqs : List Int) :
    scanSequence "SCAN" "DOWN" head reqs =
      pySortedDesc (reqs.filter (fun r => decide (r < head))) ++ [MIN_TRACK] ++
        pySorted (reqs.filter (fun r => decide (head ≤ r))) := by
  show pySortedDesc ((pySorted reqs).filter (fun r => decide (r < head))) ++ [MIN_TRACK] ++
      (pySortedDesc ((pySorted reqs).filter (fun r => decide (head ≤ r)))).reverse = _
  rw [pySortedDesc_filter_pySorted, pySortedDesc_reverse, pySorted_filter_pySorted]

theorem scanSequence_CSCAN_UP (head : Int) (reqs : List Int) :
    scanSequence "C-SCAN" "UP" head reqs =
      pySorted (reqs.filter (fun r => decide (head ≤ r))) ++ [MAX_TRACK, MIN_TRACK] ++
        pySorted (reqs.filter (fun r => decide (r < head))) := by
  show pySorted ((pySorted reqs).filter (fun r => decide (head ≤ r))) ++
      [MAX_TRACK, MIN_TRACK] ++ pySorted ((pySorted reqs).filter (fun r => decide (r < head))) = _
  rw [pySorted_filter_pySorted, pySorted_filter_pySorted]

theorem scanSequence_CSCAN_DOWN (head : Int) (reqs : List Int) :
    scanSequence "C-SCAN" "DOWN" head reqs =
      pySortedDesc (reqs.filter (fun r => decide (r < head))) ++ [MIN_TRACK, MAX_TRACK] ++
        pySortedDesc (reqs.filter (fun r => decide (head ≤ r))) := by
  show pySortedDesc ((pySorted reqs).filter (fun r => decide (r < head))) ++
      [MIN_TRACK, MAX_TRACK] ++
      pySortedDesc ((pySorted reqs).filter (fun r => decide (head ≤ r))) = _
  rw [pySortedDesc_filter_pySorted, pySortedDesc_filter_pySorted]

/-- The `finish` in closed form: the returned quadruple from the final state. -/
theorem finish_snd (s : DiskScheduler) :
    s.finish.2 = some
      { movement_sequence := s.movement_sequence
        total_seek := s.total_seek_time
        avg_seek := if s.initial_requests.length ≠ 0 then
            (s.total_seek_time : ℚ) / (s.initial_requests.length : ℚ) else 0
        throughput := if 0 < (s.total_seek_time : ℚ) * SEEK_TIME_PER_TRACK then
            (s.initial_requests.length : ℚ) / ((s.total_seek_time : ℚ) * SEEK_TIME_PER_TRACK)
          else 0 } := rfl

/-- Closed form of a fresh FCFS run: state after serving the whole request
list in input order. -/
theorem runSim_FCFS (reqs : List Int) (head : Int) (dir : String) :
    runSim reqs head "FCFS" dir =
      (DiskScheduler.finish
        { initial_requests := reqs
          initial_head := head
          head_position := reqs.getLastD head
          total_seek_time := loopSeek false head reqs
          movement_sequence := head :: reqs
          requests := reqs }).2 := by
  simp only [runSim, DiskScheduler.simulate, DiskScheduler.init, DiskScheduler.fcfs]
  norm_num
  rw [foldl_serveTrack]
  simp

/-- Closed form of a fresh SSTF run: state after serving `sstfSeq`. -/
theorem runSim_SSTF (reqs : List Int) (head : Int) (dir : String) :
    runSim reqs head "SSTF" dir =
      (DiskScheduler.finish
        { initial_requests := reqs
          initial_head := head
          head_position := (sstfSeq head reqs).getLastD head
          total_seek_time := loopSeek false head (sstfSeq head reqs)
          movement_sequence := head :: sstfSeq head reqs
          requests := reqs }).2 := by
  simp only [runSim, DiskScheduler.simulate, DiskScheduler.init, DiskScheduler.sstf]
  norm_num
  rw [sstfLoop_eq_foldl, foldl_serveTrack]
  simp

/-- Closed form of a fresh SCAN run over its constructed sequence. -/
theorem runSim_SCAN (reqs : List Int) (head : Int) (dir : String) :
    runSim reqs head "SCAN" dir =
      (DiskScheduler.finish
        { initial_requests := reqs
          initial_head := head
          head_position := (scanSequence "SCAN" dir head reqs).getLastD head
          total_seek_time := loopSeek false head (scanSequence "SCAN" dir head reqs)
          movement_sequence := head :: scanSequence "SCAN" dir head reqs
          requests := reqs }).2 := by
  simp only [runSim, DiskScheduler.simulate, DiskScheduler.init, DiskScheduler.scanOrCscan]
  norm_num
  rw [foldl_serveTrack]
  simp

/-- Closed form of a fresh C-SCAN run over its constructed sequence, with
the zero-cost boundary-jump rule active. -/
theorem runSim_CSCAN (reqs : List Int) (head : Int) (dir : String) :
    runSim reqs head "C-SCAN" dir =
      (DiskScheduler.finish
        { initial_requests := reqs
          initial_head := head
          head_position := (scanSequence "C-SCAN" dir head reqs).getLastD head
          total_seek_time := loopSeek true head (scanSequence "C-SCAN" dir head reqs)
          movement_sequence := head :: scanSequence "C-SCAN" dir head reqs
          requests := reqs }).2 := by
  simp only [runSim, DiskScheduler.simulate, DiskScheduler.init, DiskScheduler.scanOrCscan]
  norm_num
  rw [foldl_serveTrack]
  simp

/-! ### State discipline of `simulate` -/

/-- The three run branches and the failure branch all preserve the two
initial (immutable) fields of the engine. -/
theorem simulate_preserves_initial (s : DiskScheduler) (alg dir : String) :
    (s.simulate alg dir).1.initial_requests = s.initial_requests ∧
    (s.simulate alg dir).1.initial_head = s.initial_head := by
  unfold DiskScheduler.simulate
  split_ifs
  · rw [DiskScheduler.finish, DiskScheduler.fcfs, foldl_serveTrack]
    exact ⟨rfl, rfl⟩
  · rw [DiskScheduler.finish, DiskScheduler.sstf, sstfLoop_eq_foldl, foldl_serveTrack]
    exact ⟨rfl, rfl⟩
  · rw [DiskScheduler.finish, DiskScheduler.scanOrCscan, foldl_serveTrack]
    exact ⟨rfl, rfl⟩
  · exact ⟨rfl, rfl⟩

/-- The returned quadruple depends only on the two initial fields: the
reset at the top of `simulate` erases every other component of the state. -/
theorem simulate_snd_eq_of_initial {s₁ s₂ : DiskScheduler}
    (hr : s₁.initial_requests = s₂.initial_requests)
    (hh : s₁.initial_head = s₂.initial_head) (alg dir : String) :
    (s₁.simulate alg dir).2 = (s₂.simulate alg dir).2 := by
  obtain ⟨ir₁, ih₁, hp₁, ts₁, ms₁, rq₁⟩ := s₁
  obtain ⟨ir₂, ih₂, hp₂, ts₂, ms₂, rq₂⟩ := s₂
  simp only at hr hh
  subst hr
  subst hh
  rfl

/-- Unknown algorithm: only the reset runs, and the call reports failure. -/
theorem simulate_unknown (s : DiskScheduler) (alg dir : String)
    (h1 : ¬ alg = "FCFS") (h2 : ¬ alg = "SSTF")
    (h3 : ¬ alg = "SCAN") (h4 : ¬ alg = "C-SCAN") :
    s.simulate alg dir =
      ({ s with
          head_position := s.initial_head
          requests := s.initial_requests
          total_seek_time := 0
          movement_sequence := [s.initial_head] }, none) := by
  unfold DiskScheduler.simulate
  rw [if_neg h1, if_neg h2, if_neg (not_or.mpr ⟨h3, h4⟩)]

/-! ### The second engine copy (`disk_sheduling.py`)

`disk_sheduling.py` contains a second `DiskScheduler` class whose
`__init__`, `_calculate_metrics`, `simulate`, `_fcfs`, `_sstf`, and the
seek-accounting loop of `_scan_or_cscan` are textually identical to those
of `disk_logic.py` (embedded above and reused here); its
`_scan_or_cscan` differs only in how the SCAN secondary list is built:
`sorted(..., reverse=True)` up front with no later in-place reverse. -/

namespace Sheduling

/-- The `sequence` list built by `_scan_or_cscan` in `disk_sheduling.py`. -/
def scanSequence2 (algorithm direction : String) (current_head : Int) (reqs : List Int) :
    List Int :=
  let requests := pySorted reqs
  let lower := requests.filter (fun r => decide (r < current_head))
  let upper := requests.filter (fun r => decide (current_head ≤ r))
  if direction = "UP" then
    let current_list := pySorted upper
    let other_list := pySortedDesc lower
    if algorithm = "SCAN" then current_list ++ [MAX_TRACK] ++ other_list
    else if algorithm = "C-SCAN" then current_list ++ [MAX_TRACK, MIN_TRACK] ++ pySorted lower
    else current_list
  else if direction = "DOWN" then
    let current_list := pySortedDesc lower
    let other_list := pySorted upper
    if algorithm = "SCAN" then current_list ++ [MIN_TRACK] ++ other_list
    else if algorithm = "C-SCAN" then current_list ++ [MIN_TRACK, MAX_TRACK] ++ pySortedDesc upper
    else current_list
  else []

/-- The `_scan_or_cscan` of `disk_sheduling.py`: identical seek loop over its
own `sequence`. -/
def scanOrCscan2 (s : DiskScheduler) (algorithm direction : String) : DiskScheduler :=
  (scanSequence2 algorithm direction s.initial_head s.requests).foldl
    (serveTrack (algorithm == "C-SCAN")) s

/-- The `simulate` of `disk_sheduling.py` (textually identical to the one in
`disk_logic.py`, dispatching to its own `_scan_or_cscan`). -/
def simulate2 (s₀ : DiskScheduler) (algorithm direction : String) :
    DiskScheduler × Option SimResult :=
  let s : DiskScheduler :=
    { s₀ with
      head_position := s₀.initial_head
      requests := s₀.initial_requests
      total_seek_time := 0
      movement_sequence := [s₀.initial_head] }
  if algorithm = "FCFS" then s.fcfs.finish
  else if algorithm = "SSTF" then s.sstf.finish
  else if algorithm = "SCAN" ∨ algorithm = "C-SCAN" then
    (scanOrCscan2 s algorithm direction).finish
  else (s, none)

end Sheduling

/-- The two `sequence` constructions agree on every input: building the
SCAN secondary list descending up front equals sorting it ascending and
reversing afterwards. -/
theorem scanSequence2_eq_scanSequence (algorithm direction : String)
    (head : Int) (reqs : List Int) :
    Sheduling.scanSequence2 algorithm direction head reqs =
      scanSequence algorithm direction head reqs := by
  unfold Sheduling.scanSequence2 scanSequence
  split_ifs <;> simp only [pySorted_reverse, pySortedDesc_reverse]

theorem scanOrCscan2_eq (s : DiskScheduler) (a d : String) :
    Sheduling.scanOrCscan2 s a d = s.scanOrCscan a d := by
  unfold Sheduling.scanOrCscan2 DiskScheduler.scanOrCscan
  rw [scanSequence2_eq_scanSequence]

theorem simulate2_eq (s : DiskScheduler) (a d : String) :
    Sheduling.simulate2 s a d = s.simulate a d := by
  unfold Sheduling.simulate2 DiskScheduler.simulate
  simp only [scanOrCscan2_eq]

/-- Gluing lemma: a middle block `b` inserted between permuted copies of a
two-block split is a permutation of the split's source followed by `b`. -/
theorem append_mid_perm {A B A' B' reqs : List Int} (b : List Int)
    (hA : List.Perm A A') (hB : List.Perm B B')
    (hsplit : List.Perm (A' ++ B') reqs) :
    List.Perm (A ++ b ++ B) (reqs ++ b) := by
  rw [List.append_assoc]
  refine (hA.append ((List.Perm.append_left b hB).trans List.perm_append_comm)).trans ?_
  rw [← List.append_assoc]
  exact hsplit.append_right b

/-- What the returned metrics of `finish` satisfy, given that the
accumulated seek is nonnegative. -/
theorem finish_metrics_spec (s : DiskScheduler) (r : SimResult)
    (hnn : 0 ≤ s.total_seek_time) (h : s.finish.2 = some r) :
    0 ≤ r.total_seek ∧
    (s.initial_requests.length ≠ 0 →
      r.avg_seek = (r.total_seek : ℚ) / (s.initial_requests.length : ℚ)) ∧
    (s.initial_requests.length = 0 → r.avg_seek = 0) ∧
    (r.total_seek ≠ 0 →
      r.throughput = (s.initial_requests.length : ℚ) /
        ((r.total_seek : ℚ) * SEEK_TIME_PER_TRACK)) ∧
    (r.total_seek = 0 → r.throughput = 0) := by
  rw [finish_snd] at h
  have hr := Option.some.inj h
  subst hr
  refine ⟨hnn, ?_, ?_, ?_, ?_⟩
  · intro hn
    simp only [if_pos hn]
  · intro hn
    simp [hn]
  · intro hz
    have hz' : s.total_seek_time ≠ 0 := hz
    have hpos : 0 < s.total_seek_time := lt_of_le_of_ne hnn (Ne.symm hz')
    have hq : 0 < (s.total_seek_time : ℚ) * SEEK_TIME_PER_TRACK := by
      rw [SEEK_TIME_PER_TRACK, mul_one]
      exact_mod_cast hpos
    simp only [if_pos hq]
  · intro hz
    have hz' : s.total_seek_time = 0 := hz
    simp [hz']

/-! ### Claims -/

/-- Claim C1, counterexample.  The claim says C-SCAN charges `0` only for the
single boundary-to-boundary wrap jump, so that total seek equals the sum of
`|next − current|` over all transitions except that one jump.  For requests
`[199]` with head `0` going UP, the code produces movement
`[0, 199, 199, 0]` with total seek `0`: the outgoing service transition
`0 → 199` is itself an opposite-boundary pair and is also charged `0`
(`boundaryJumpSum = 398`, i.e. two discounted transitions), while the
claim's formula predicts `398 − 199 = 199 ≠ 0`. -/
theorem C1_counterexample :
    runSim [199] 0 "C-SCAN" "UP" = some ⟨[0, 199, 199, 0], 0, 0, 0⟩ ∧
    boundaryJumpSum 0 [199, 199, 0] = 398 ∧
    loopSeek false 0 [199, 199, 0] - |(0 : Int) - 199| = 199 ∧
    (0 : Int) ≠ loopSeek false 0 [199, 199, 0] - |(0 : Int) - 199| := by
  have hseq : scanSequence "C-SCAN" "UP" 0 [199] = [199, 199, 0] := by decide
  have htot : loopSeek true 0 [199, 199, 0] = 0 := by decide
  refine ⟨?_, by decide, by decide, by decide⟩
  rw [runSim_CSCAN, finish_snd, hseq, htot]
  norm_num

/-- Claim C1, amended.  C-SCAN charges `|next − current|` for every
transition, except that EVERY opposite-boundary transition (current at one
boundary, next at the other) is charged `0` — usually the single return
stroke, but possibly also a service transition that happens to span the
whole disk.  Total seek equals the plain sum of absolute differences minus
the distances of exactly those boundary-pair transitions. -/
theorem C1_cscan_seek_amended (reqs : List Int) (head : Int) (dir : String)
    (seq : List Int) :
    Option.map SimResult.total_seek (runSim reqs head "C-SCAN" dir) =
      some (loopSeek false head (scanSequence "C-SCAN" dir head reqs) -
        boundaryJumpSum head (scanSequence "C-SCAN" dir head reqs)) ∧
    loopSeek true head seq + boundaryJumpSum head seq = loopSeek false head seq := by
  constructor
  · rw [runSim_CSCAN, finish_snd]
    have h := loopSeek_cscan_add_boundaryJumpSum head (scanSequence "C-SCAN" dir head reqs)
    simp only [Option.map_some']
    congr 1
    show loopSeek true head (scanSequence "C-SCAN" dir head reqs) =
      loopSeek false head (scanSequence "C-SCAN" dir head reqs) -
        boundaryJumpSum head (scanSequence "C-SCAN" dir head reqs)
    omega
  · exact loopSeek_cscan_add_boundaryJumpSum head seq

/-- Claim C2.  SSTF repeatedly serves, from the remaining requests, the one
of minimum absolute distance to the current head, with ties broken in
favor of the earlier position in the current remaining list, and removes
exactly that occurrence before recursing; on the spec's example it yields
service order 43, 24, 16, 82, 140, 170, 190 with total seek 208. -/
theorem C2_sstf_greedy (head t : Int) (ts : List Int) :
    (∃ m l₁ l₂,
      sstfSeq head (t :: ts) = m :: sstfSeq m ((t :: ts).erase m) ∧
      t :: ts = l₁ ++ m :: l₂ ∧
      (∀ x ∈ t :: ts, |m - head| ≤ |x - head|) ∧
      (∀ x ∈ l₁, |m - head| < |x - head|) ∧
      (t :: ts).erase m = l₁ ++ l₂) ∧
    runSim [82, 170, 43, 140, 24, 16, 190] 50 "SSTF" "UP" =
      some ⟨[50, 43, 24, 16, 82, 140, 170, 190], 208, 208 / 7, 7 / 208⟩ := by
  constructor
  · obtain ⟨l₁, l₂, heq, hstrict⟩ := pyMinFrom_first head ts t
    have hnot : pyMinFrom head t ts ∉ l₁ := fun hx => lt_irrefl _ (hstrict _ hx)
    refine ⟨pyMinFrom head t ts, l₁, l₂, sstfSeq_cons head t ts, heq,
      pyMinFrom_le head ts t, hstrict, ?_⟩
    rw [heq, List.erase_append_right _ hnot, List.erase_cons_head]
  · have hseq : sstfSeq 50 [82, 170, 43, 140, 24, 16, 190] =
        [43, 24, 16, 82, 140, 170, 190] := by decide
    have htot : loopSeek false 50 [43, 24, 16, 82, 140, 170, 190] = 208 := by decide
    rw [runSim_SSTF, finish_snd, hseq, htot]
    norm_num [SEEK_TIME_PER_TRACK]

/-- Claim C7.  An algorithm name outside {FCFS, SSTF, SCAN, C-SCAN} yields
the failure result: no quadruple is returned, and the engine state holds
only the freshly reset values (movement `[head]`, zero seek) — no partial
movement is computed. -/
theorem C7_unknown_algorithm (reqs : List Int) (head : Int) (alg dir : String)
    (h1 : alg ≠ "FCFS") (h2 : alg ≠ "SSTF") (h3 : alg ≠ "SCAN") (h4 : alg ≠ "C-SCAN") :
    runSim reqs head alg dir = none ∧
    ((DiskScheduler.init reqs head).simulate alg dir).1.movement_sequence = [head] ∧
    ((DiskScheduler.init reqs head).simulate alg dir).1.total_seek_time = 0 := by
  have h := simulate_unknown (DiskScheduler.init reqs head) alg dir h1 h2 h3 h4
  refine ⟨?_, ?_, ?_⟩
  · rw [runSim, h]
  · rw [h]
    rfl
  · rw [h]

/-- Witness for C7 at the concrete unknown name "LOOK". -/
theorem C7_witness :
    ("LOOK" : String) ≠ "FCFS" ∧ ("LOOK" : String) ≠ "SSTF" ∧
    ("LOOK" : String) ≠ "SCAN" ∧ ("LOOK" : String) ≠ "C-SCAN" ∧
    (runSim [5] 3 "LOOK" "UP" = none ∧
     ((DiskScheduler.init [5] 3).simulate "LOOK" "UP").1.movement_sequence = [3] ∧
     ((DiskScheduler.init [5] 3).simulate "LOOK" "UP").1.total_seek_time = 0) :=
  ⟨by decide, by decide, by decide, by decide,
    C7_unknown_algorithm [5] 3 "LOOK" "UP" (by decide) (by decide) (by decide) (by decide)⟩

/-- Claim C8.  A `simulate` call reads only the two initial fields (which no
run ever mutates): a second call on the same engine returns exactly what a
freshly constructed engine with the same requests and head would return,
regardless of the algorithm and direction of the prior run. -/
theorem C8_state_independence (s : DiskScheduler) (alg₁ dir₁ alg₂ dir₂ : String) :
    (((s.simulate alg₁ dir₁).1).simulate alg₂ dir₂).2 =
      ((DiskScheduler.init s.initial_requests s.initial_head).simulate alg₂ dir₂).2 ∧
    ((s.simulate alg₁ dir₁).1).initial_requests = s.initial_requests ∧
    ((s.simulate alg₁ dir₁).1).initial_head = s.initial_head := by
  obtain ⟨h1, h2⟩ := simulate_preserves_initial s alg₁ dir₁
  exact ⟨simulate_snd_eq_of_initial (by rw [h1]; rfl) (by rw [h2]; rfl) alg₂ dir₂, h1, h2⟩

/-- Claim C9, counterexample (the claim is an existential: "for some input
their SCAN movement sequences differ"; this proves its negation).  There is
NO request list, head, and direction on which the two implementations
produce different SCAN movement sequences: sorting the secondary list
descending up front (`disk_sheduling.py`) and reversing an ascending sort
in place before use (`disk_logic.py`) build the same list of values, and in
both versions the secondary list is appended only after the boundary. -/
theorem C9_counterexample :
    ¬ ∃ (dir : String) (head : Int) (reqs : List Int),
        Option.map SimResult.movement_sequence
            ((Sheduling.simulate2 (DiskScheduler.init reqs head) "SCAN" dir).2) ≠
          Option.map SimResult.movement_sequence
            (((DiskScheduler.init reqs head).simulate "SCAN" dir).2) := by
  rintro ⟨dir, head, reqs, hne⟩
  exact hne (by rw [simulate2_eq])

/-- Claim C9, amended.  The two near-duplicate implementations differ only
textually in how the SCAN secondary sweep list is built; they agree on
every input: `simulate` of `disk_sheduling.py` returns exactly the state
and quadruple of `disk_logic.py` for every engine state, algorithm, and
direction. -/
theorem C9_amended_equivalence (s : DiskScheduler) (alg dir : String) :
    Sheduling.simulate2 s alg dir = s.simulate alg dir :=
  simulate2_eq s alg dir

/-- Claim C3.  SCAN services the primary group in sweep order, appends the
reached boundary even if unrequested, then services the other group
nearest-boundary-first: UP = upper ascending, MAX_TRACK, lower descending;
DOWN = lower descending, MIN_TRACK, upper ascending; on the spec's example
total seek is 332. -/
theorem C3_scan_order (reqs : List Int) (head : Int) :
    Option.map SimResult.movement_sequence (runSim reqs head "SCAN" "UP") =
      some (head :: (pySorted (reqs.filter (fun r => decide (head ≤ r))) ++ [MAX_TRACK] ++
        pySortedDesc (reqs.filter (fun r => decide (r < head))))) ∧
    Option.map SimResult.movement_sequence (runSim reqs head "SCAN" "DOWN") =
      some (head :: (pySortedDesc (reqs.filter (fun r => decide (r < head))) ++ [MIN_TRACK] ++
        pySorted (reqs.filter (fun r => decide (head ≤ r))))) ∧
    (pySorted (reqs.filter (fun r => decide (head ≤ r)))).Sorted (· ≤ ·) ∧
    (pySortedDesc (reqs.filter (fun r => decide (r < head)))).Sorted (· ≥ ·) ∧
    List.Perm (pySorted (reqs.filter (fun r => decide (head ≤ r))))
      (reqs.filter (fun r => decide (head ≤ r))) ∧
    List.Perm (pySortedDesc (reqs.filter (fun r => decide (r < head))))
      (reqs.filter (fun r => decide (r < head))) ∧
    runSim [82, 170, 43, 140, 24, 16, 190] 50 "SCAN" "UP" =
      some ⟨[50, 82, 140, 170, 190, 199, 43, 24, 16], 332, 332 / 7, 7 / 332⟩ := by
  refine ⟨?_, ?_, pySorted_sorted _, pySortedDesc_sorted _, pySorted_perm _,
    pySortedDesc_perm _, ?_⟩
  · rw [runSim_SCAN, finish_snd, scanSequence_SCAN_UP]
    rfl
  · rw [runSim_SCAN, finish_snd, scanSequence_SCAN_DOWN]
    rfl
  · have hseq : scanSequence "SCAN" "UP" 50 [82, 170, 43, 140, 24, 16, 190] =
        [82, 140, 170, 190, 199, 43, 24, 16] := by decide
    have htot : loopSeek false 50 [82, 140, 170, 190, 199, 43, 24, 16] = 332 := by decide
    rw [runSim_SCAN, finish_snd, hseq, htot]
    norm_num [SEEK_TIME_PER_TRACK]

/-- Claim C4.  C-SCAN services the primary group in sweep order, visits the
reached boundary then the opposite boundary, and services the remaining
group in the SAME monotonic direction as the first sweep (never reversing):
UP = upper ascending, MAX_TRACK, MIN_TRACK, lower ascending; DOWN = lower
descending, MIN_TRACK, MAX_TRACK, upper descending; on the spec's example
total seek is 192. -/
theorem C4_cscan_order (reqs : List Int) (head : Int) :
    Option.map SimResult.movement_sequence (runSim reqs head "C-SCAN" "UP") =
      some (head :: (pySorted (reqs.filter (fun r => decide (head ≤ r))) ++
        [MAX_TRACK, MIN_TRACK] ++ pySorted (reqs.filter (fun r => decide (r < head))))) ∧
    Option.map SimResult.movement_sequence (runSim reqs head "C-SCAN" "DOWN") =
      some (head :: (pySortedDesc (reqs.filter (fun r => decide (r < head))) ++
        [MIN_TRACK, MAX_TRACK] ++ pySortedDesc (reqs.filter (fun r => decide (head ≤ r))))) ∧
    (pySorted (reqs.filter (fun r => decide (head ≤ r)))).Sorted (· ≤ ·) ∧
    (pySorted (reqs.filter (fun r => decide (r < head)))).Sorted (· ≤ ·) ∧
    (pySortedDesc (reqs.filter (fun r => decide (r < head)))).Sorted (· ≥ ·) ∧
    (pySortedDesc (reqs.filter (fun r => decide (head ≤ r)))).Sorted (· ≥ ·) ∧
    runSim [82, 170, 43, 140, 24, 16, 190] 50 "C-SCAN" "UP" =
      some ⟨[50, 82, 140, 170, 190, 199, 0, 16, 24, 43], 192, 192 / 7, 7 / 192⟩ := by
  refine ⟨?_, ?_, pySorted_sorted _, pySorted_sorted _, pySortedDesc_sorted _,
    pySortedDesc_sorted _, ?_⟩
  · rw [runSim_CSCAN, finish_snd, scanSequence_CSCAN_UP]
    rfl
  · rw [runSim_CSCAN, finish_snd, scanSequence_CSCAN_DOWN]
    rfl
  · have hseq : scanSequence "C-SCAN" "UP" 50 [82, 170, 43, 140, 24, 16, 190] =
        [82, 140, 170, 190, 199, 0, 16, 24, 43] := by decide
    have htot : loopSeek true 50 [82, 140, 170, 190, 199, 0, 16, 24, 43] = 192 := by decide
    rw [runSim_CSCAN, finish_snd, hseq, htot]
    norm_num [SEEK_TIME_PER_TRACK]

/-- Claim C5.  Every movement sequence starts with the initial head; the rest
is exactly the original requests (FCFS: verbatim; SSTF: a permutation),
or the requests plus exactly one boundary entry (SCAN) or exactly two
boundary entries (C-SCAN) — nothing dropped or duplicated — so its length
is `1 + n` (FCFS/SSTF), `1 + n + 1` (SCAN), `1 + n + 2` (C-SCAN). -/
theorem C5_conservation (reqs : List Int) (head : Int) :
    Option.map SimResult.movement_sequence (runSim reqs head "FCFS" "UP") =
      some (head :: reqs) ∧
    (head :: reqs).length = 1 + reqs.length ∧
    Option.map SimResult.movement_sequence (runSim reqs head "SSTF" "UP") =
      some (head :: sstfSeq head reqs) ∧
    List.Perm (sstfSeq head reqs) reqs ∧
    (head :: sstfSeq head reqs).length = 1 + reqs.length ∧
    Option.map SimResult.movement_sequence (runSim reqs head "SCAN" "UP") =
      some (head :: scanSequence "SCAN" "UP" head reqs) ∧
    List.Perm (scanSequence "SCAN" "UP" head reqs) (reqs ++ [MAX_TRACK]) ∧
    (head :: scanSequence "SCAN" "UP" head reqs).length = 1 + reqs.length + 1 ∧
    Option.map SimResult.movement_sequence (runSim reqs head "SCAN" "DOWN") =
      some (head :: scanSequence "SCAN" "DOWN" head reqs) ∧
    List.Perm (scanSequence "SCAN" "DOWN" head reqs) (reqs ++ [MIN_TRACK]) ∧
    Option.map SimResult.movement_sequence (runSim reqs head "C-SCAN" "UP") =
      some (head :: scanSequence "C-SCAN" "UP" head reqs) ∧
    List.Perm (scanSequence "C-SCAN" "UP" head reqs) (reqs ++ [MAX_TRACK, MIN_TRACK]) ∧
    (head :: scanSequence "C-SCAN" "UP" head reqs).length = 1 + reqs.length + 2 ∧
    Option.map SimResult.movement_sequence (runSim reqs head "C-SCAN" "DOWN") =
      some (head :: scanSequence "C-SCAN" "DOWN" head reqs) ∧
    List.Perm (scanSequence "C-SCAN" "DOWN" head reqs) (reqs ++ [MIN_TRACK, MAX_TRACK]) := by
  have hsplit := filter_split_perm head reqs
  have hsplit' : List.Perm (reqs.filter (fun r => decide (r < head)) ++
      reqs.filter (fun r => decide (head ≤ r))) reqs :=
    List.perm_append_comm.trans hsplit
  have hSU : List.Perm (scanSequence "SCAN" "UP" head reqs) (reqs ++ [MAX_TRACK]) := by
    rw [scanSequence_SCAN_UP]
    exact append_mid_perm _ (pySorted_perm _) (pySortedDesc_perm _) hsplit
  have hSD : List.Perm (scanSequence "SCAN" "DOWN" head reqs) (reqs ++ [MIN_TRACK]) := by
    rw [scanSequence_SCAN_DOWN]
    exact append_mid_perm _ (pySortedDesc_perm _) (pySorted_perm _) hsplit'
  have hCU : List.Perm (scanSequence "C-SCAN" "UP" head reqs)
      (reqs ++ [MAX_TRACK, MIN_TRACK]) := by
    rw [scanSequence_CSCAN_UP]
    exact append_mid_perm _ (pySorted_perm _) (pySorted_perm _) hsplit
  have hCD : List.Perm (scanSequence "C-SCAN" "DOWN" head reqs)
      (reqs ++ [MIN_TRACK, MAX_TRACK]) := by
    rw [scanSequence_CSCAN_DOWN]
    exact append_mid_perm _ (pySortedDesc_perm _) (pySortedDesc_perm _) hsplit'
  refine ⟨?_, ?_, ?_, sstfSeq_perm head reqs, ?_, ?_, hSU, ?_, ?_, hSD, ?_, hCU, ?_, ?_, hCD⟩
  · rw [runSim_FCFS, finish_snd]
    rfl
  · simp [Nat.add_comm]
  · rw [runSim_SSTF, finish_snd]
    rfl
  · simp [(sstfSeq_perm head reqs).length_eq, Nat.add_comm]
  · rw [runSim_SCAN, finish_snd]
    rfl
  · have := hSU.length_eq
    simp [List.length_append] at this
    simp [this]
    omega
  · rw [runSim_SCAN, finish_snd]
    rfl
  · rw [runSim_CSCAN, finish_snd]
    rfl
  · have := hCU.length_eq
    simp [List.length_append] at this
    simp [this]
    omega
  · rw [runSim_CSCAN, finish_snd]
    rfl

/-- Claim C6.  For every successful run, the total seek is nonnegative;
average seek equals total seek / request count, and is 0 when the count is
0; throughput equals request count / (total seek × time-per-track-unit),
and is 0 when the total seek is 0.  Both guards are explicit in the code,
so neither computation divides by zero (the embedding is a total function,
and each branch below is reached without any fault). -/
theorem C6_metrics (reqs : List Int) (head : Int) (alg dir : String) (r : SimResult)
    (h : runSim reqs head alg dir = some r) :
    0 ≤ r.total_seek ∧
    (reqs.length ≠ 0 → r.avg_seek = (r.total_seek : ℚ) / (reqs.length : ℚ)) ∧
    (reqs.length = 0 → r.avg_seek = 0) ∧
    (r.total_seek ≠ 0 →
      r.throughput = (reqs.length : ℚ) / ((r.total_seek : ℚ) * SEEK_TIME_PER_TRACK)) ∧
    (r.total_seek = 0 → r.throughput = 0) := by
  by_cases h1 : alg = "FCFS"
  · subst h1
    rw [runSim_FCFS] at h
    exact finish_metrics_spec _ r (loopSeek_nonneg _ _ _) h
  by_cases h2 : alg = "SSTF"
  · subst h2
    rw [runSim_SSTF] at h
    exact finish_metrics_spec _ r (loopSeek_nonneg _ _ _) h
  by_cases h3 : alg = "SCAN"
  · subst h3
    rw [runSim_SCAN] at h
    exact finish_metrics_spec _ r (loopSeek_nonneg _ _ _) h
  by_cases h4 : alg = "C-SCAN"
  · subst h4
    rw [runSim_CSCAN] at h
    exact finish_metrics_spec _ r (loopSeek_nonneg _ _ _) h
  rw [runSim, simulate_unknown _ _ _ h1 h2 h3 h4] at h
  exact absurd h (by simp)

/-- Witness for C6 at requests `[10]`, head `0`, FCFS. -/
theorem C6_witness :
    runSim [10] 0 "FCFS" "UP" = some ⟨[0, 10], 10, 10, 1 / 10⟩ ∧
    (0 ≤ (10 : Int) ∧
     (([10] : List Int).length ≠ 0 →
       (10 : ℚ) = ((10 : Int) : ℚ) / (([10] : List Int).length : ℚ)) ∧
     (([10] : List Int).length = 0 → (10 : ℚ) = 0) ∧
     ((10 : Int) ≠ 0 →
       (1 / 10 : ℚ) = (([10] : List Int).length : ℚ) /
         (((10 : Int) : ℚ) * SEEK_TIME_PER_TRACK)) ∧
     ((10 : Int) = 0 → (1 / 10 : ℚ) = 0)) := by
  have hrun : runSim [10] 0 "FCFS" "UP" = some ⟨[0, 10], 10, 10, 1 / 10⟩ := by
    have htot : loopSeek false 0 [10] = 10 := by decide
    rw [runSim_FCFS, finish_snd, htot]
    norm_num [SEEK_TIME_PER_TRACK]
  exact ⟨hrun, C6_metrics [10] 0 "FCFS" "UP" ⟨[0, 10], 10, 10, 1 / 10⟩ hrun⟩

/-- Claim C10.  The empty request list is accepted: FCFS and SSTF return
movement `[h]` with all three numbers 0, while SCAN UP still appends the
boundary and charges the travel (movement `[h, MAX_TRACK]`, total seek
`MAX_TRACK − h`, positive whenever `h < MAX_TRACK`, with average seek and
throughput still 0), and C-SCAN UP appends both boundaries (movement
`[h, MAX_TRACK, MIN_TRACK]`) and charges `MAX_TRACK − h` whenever the head
does not itself start on the lower boundary. -/
theorem C10_empty_requests (h : Int) (hlo : MIN_TRACK ≤ h) (hhi : h ≤ MAX_TRACK) :
    runSim [] h "FCFS" "UP" = some ⟨[h], 0, 0, 0⟩ ∧
    runSim [] h "SSTF" "UP" = some ⟨[h], 0, 0, 0⟩ ∧
    runSim [] h "SCAN" "UP" = some ⟨[h, MAX_TRACK], MAX_TRACK - h, 0, 0⟩ ∧
    (h < MAX_TRACK → 0 < MAX_TRACK - h) ∧
    Option.map SimResult.movement_sequence (runSim [] h "C-SCAN" "UP") =
      some [h, MAX_TRACK, MIN_TRACK] ∧
    (MIN_TRACK < h →
      Option.map SimResult.total_seek (runSim [] h "C-SCAN" "UP") =
        some (MAX_TRACK - h)) := by
  have hseqS : scanSequence "SCAN" "UP" h [] = [MAX_TRACK] := by
    rw [scanSequence_SCAN_UP]
    rfl
  have hseqC : scanSequence "C-SCAN" "UP" h [] = [MAX_TRACK, MIN_TRACK] := by
    rw [scanSequence_CSCAN_UP]
    rfl
  refine ⟨?_, ?_, ?_, fun hlt => sub_pos.mpr hlt, ?_, ?_⟩
  · rw [runSim_FCFS, finish_snd]
    norm_num [loopSeek, SEEK_TIME_PER_TRACK]
  · rw [runSim_SSTF, finish_snd]
    norm_num [loopSeek, sstfSeq, sstfSeqAux, SEEK_TIME_PER_TRACK]
  · have htot : loopSeek false h [MAX_TRACK] = MAX_TRACK - h := by
      have habs : loopSeek false h [MAX_TRACK] = |MAX_TRACK - h| := by
        simp [loopSeek]
      rw [habs, abs_of_nonneg (sub_nonneg.mpr hhi)]
    rw [runSim_SCAN, finish_snd, hseqS, htot]
    norm_num [SEEK_TIME_PER_TRACK]
  · rw [runSim_CSCAN, finish_snd, hseqC]
    rfl
  · intro hpos
    have hne0 : h ≠ 0 := by
      intro hz
      rw [hz] at hpos
      exact lt_irrefl _ hpos
    have htot2 : loopSeek true h [MAX_TRACK, MIN_TRACK] = |MAX_TRACK - h| := by
      simp [loopSeek, MAX_TRACK, MIN_TRACK, hne0]
    rw [runSim_CSCAN, finish_snd, hseqC]
    simp only [Option.map_some']
    congr 1
    show loopSeek true h [MAX_TRACK, MIN_TRACK] = MAX_TRACK - h
    rw [htot2, abs_of_nonneg (sub_nonneg.mpr hhi)]

/-- Witness for C10 at head `50`. -/
theorem C10_witness :
    (MIN_TRACK ≤ (50 : Int) ∧ (50 : Int) ≤ MAX_TRACK) ∧
    (runSim [] 50 "FCFS" "UP" = some ⟨[50], 0, 0, 0⟩ ∧
     runSim [] 50 "SSTF" "UP" = some ⟨[50], 0, 0, 0⟩ ∧
     runSim [] 50 "SCAN" "UP" = some ⟨[50, MAX_TRACK], MAX_TRACK - 50, 0, 0⟩ ∧
     ((50 : Int) < MAX_TRACK → 0 < MAX_TRACK - 50) ∧
     Option.map SimResult.movement_sequence (runSim [] 50 "C-SCAN" "UP") =
       some [50, MAX_TRACK, MIN_TRACK] ∧
     (MIN_TRACK < (50 : Int) →
       Option.map SimResult.total_seek (runSim [] 50 "C-SCAN" "UP") =
         some (MAX_TRACK - 50))) :=
  ⟨⟨by decide, by decide⟩, C10_empty_requests 50 (by decide) (by decide)⟩

end DiskSim
